import Mathlib

/-!
Shallow embedding of the afvikle command-bookmarking CLI core:
the directory resolver (`resolveDirectory` in main.go), the record store
(`AddCommand`, `GetCommand`, `GetAllCommands`, `UpdateCommand`,
`DeleteCommand` in database.go, backed by a bbolt bucket whose keys are
iterated in ascending byte order), and the `run` subcommand's
working-directory dispatch (main.go).

OS interaction (current directory, user home, `os.Stat`, the clock) is
modelled by an explicit environment record; the bbolt bucket is modelled
as a key-sorted association list, with `bucketPut` performing the B-tree
sorted insert-or-replace (rejecting the empty key, as bbolt does) and a
transaction that errors leaving the store unchanged (rollback).
-/

deriving instance DecidableEq for Except

namespace Afvikle

/-- Whitespace as recognised by Go's `unicode.IsSpace` on the ASCII range
(the characters `strings.TrimSpace` trims in the inputs at stake). -/
def isSpaceChar (c : Char) : Bool :=
  c = ' ' || c = '\t' || c = '\n' || c = '\r' || c = '\x0b' || c = '\x0c'

/-- Go `strings.TrimSpace`: drop leading and trailing whitespace. -/
def trimSpace (s : String) : String :=
  ⟨((s.data.dropWhile isSpaceChar).reverse.dropWhile isSpaceChar).reverse⟩

/-- Go `strings.HasPrefix`. -/
def hasPrefix (s p : String) : Bool :=
  p.data.isPrefixOf s.data

/-- Drop the first `n` bytes of an ASCII string (Go `dir[2:]` on `~/...`). -/
def strDrop (s : String) (n : Nat) : String :=
  ⟨s.data.drop n⟩

/-- Split a character list at every occurrence of `sep`
(Go `strings.Split` semantics, keeping empty fields). -/
def splitCharAux (sep : Char) : List Char → List Char → List (List Char)
  | [], acc => [acc.reverse]
  | c :: rest, acc =>
    if c = sep then acc.reverse :: splitCharAux sep rest []
    else splitCharAux sep rest (c :: acc)

def splitChar (sep : Char) (l : List Char) : List (List Char) :=
  splitCharAux sep l []

/-- The element-processing loop of Go `path/filepath.Clean` (Unix):
drop empty and `.` components, let `..` pop a previous component unless
at the root or the output so far is itself all `..`. -/
def cleanComponents (rooted : Bool) : List (List Char) → List (List Char) → List (List Char)
  | [], acc => acc.reverse
  | [] :: rest, acc => cleanComponents rooted rest acc
  | ['.'] :: rest, acc => cleanComponents rooted rest acc
  | ['.', '.'] :: rest, acc =>
    match acc with
    | [] => if rooted then cleanComponents rooted rest []
            else cleanComponents rooted rest [['.', '.']]
    | ['.', '.'] :: _ => cleanComponents rooted rest (['.', '.'] :: acc)
    | _ :: accTail => cleanComponents rooted rest accTail
  | c :: rest, acc => cleanComponents rooted rest (c :: acc)

def joinWithSlash : List (List Char) → List Char
  | [] => []
  | [c] => c
  | c :: rest => c ++ '/' :: joinWithSlash rest

/-- Go `path/filepath.Clean` on Unix paths. -/
def filepathClean (path : String) : String :=
  if path = "" then "."
  else
    let rooted := hasPrefix path "/"
    let out := joinWithSlash (cleanComponents rooted (splitChar '/' path.data) [])
    if rooted then ⟨'/' :: out⟩
    else if out = [] then "." else ⟨out⟩

/-- Go `path/filepath.Join` restricted to two elements: empty elements are
skipped, the rest are joined with `/` and the result is cleaned; all-empty
input yields the empty string. -/
def filepathJoin (a b : String) : String :=
  if a = "" then
    if b = "" then "" else filepathClean b
  else if b = "" then filepathClean a
  else filepathClean (a ++ "/" ++ b)

/-- Go `path/filepath.IsAbs` on Unix. -/
def filepathIsAbs (path : String) : Bool :=
  hasPrefix path "/"

/-- Result of an `os.Stat` call, as far as the code observes it:
the path is an existing directory, an existing non-directory file,
does not exist (`os.IsNotExist` on the error), or the stat call failed
for some other reason. -/
inductive StatResult where
  | isDir
  | isFile
  | notExist
  | statErr
deriving DecidableEq

/-- The process environment a single CLI invocation observes:
`os.Getwd`, the home directory of `user.Current()` (each of which can
fail with an error), the `os.Stat` oracle, and the already-formatted
`time.Now().Format("2006-01-02 15:04:05")` string. -/
structure Env where
  getwd : Except String String
  homeDir : Except String String
  stat : String → StatResult
  now : String

/-- Go `path/filepath.Abs`: clean an absolute path, otherwise join it
onto the current directory. -/
def filepathAbs (env : Env) (path : String) : Except String String :=
  if filepathIsAbs path then .ok (filepathClean path)
  else
    match env.getwd with
    | .ok wd => .ok (filepathJoin wd path)
    | .error e => .error e

/-- `resolveDirectory` from main.go: resolves the directory shortcuts
`.`, `~` and `~/...`; note that the empty-input check precedes the
`strings.TrimSpace` call. -/
def resolveDirectory (env : Env) (dir : String) : Except String String :=
  if dir = "" then .ok ""
  else
    let dir := trimSpace dir
    if dir = "." then
      match env.getwd with
      | .ok cwd => .ok cwd
      | .error e => .error ("failed to get current directory: " ++ e)
    else if dir = "~" then
      match env.homeDir with
      | .ok home => .ok home
      | .error e => .error ("failed to get user home directory: " ++ e)
    else if hasPrefix dir "~/" then
      match env.homeDir with
      | .ok home => .ok (filepathJoin home (strDrop dir 2))
      | .error e => .error ("failed to get user home directory: " ++ e)
    else
      match filepathAbs env dir with
      | .ok absPath => .ok absPath
      | .error e => .error ("failed to resolve path: " ++ e)

/-! ## Record store (database.go over a bbolt bucket) -/

/-- Lexicographic strict order on character lists, the order in which
bbolt iterates the keys of a bucket (byte order; these keys are the raw
bytes of the stored names). -/
def listCharLt : List Char → List Char → Bool
  | [], [] => false
  | [], _ :: _ => true
  | _ :: _, [] => false
  | a :: as, b :: bs =>
    if a < b then true
    else if a = b then listCharLt as bs
    else false

/-- Strict ascending key order on strings. -/
def strLt (a b : String) : Bool :=
  listCharLt a.data b.data

/-- The persisted record (`Command` struct in database.go); JSON
marshalling of this struct is lossless, so records are stored directly. -/
structure Command where
  id : Int
  name : String
  description : String
  command : String
  workingDir : String
  createdAt : String
deriving DecidableEq

/-- The `commands` bbolt bucket: an association list kept sorted in
strictly ascending key order (bbolt iterates keys in ascending byte
order, which on these strings is lexicographic order on characters). -/
abbrev Store := List (String × Command)

/-- `bucket.Get`: the value stored under a key, if any. -/
def storeGet : Store → String → Option Command
  | [], _ => none
  | (k, c) :: rest, key => if key = k then some c else storeGet rest key

/-- Sorted insert-or-replace: the B-tree semantics of `bucket.Put`. -/
def storePut : Store → String → Command → Store
  | [], key, c => [(key, c)]
  | (k, c') :: rest, key, c =>
    if strLt key k then (key, c) :: (k, c') :: rest
    else if key = k then (key, c) :: rest
    else (k, c') :: storePut rest key c

/-- `bucket.Delete`: remove the key if present. -/
def storeDelete : Store → String → Store
  | [], _ => []
  | (k, c) :: rest, key => if key = k then rest else (k, c) :: storeDelete rest key

/-- `bucket.Put`: bbolt rejects a zero-length key with `ErrKeyRequired`;
otherwise the sorted insert-or-replace happens. -/
def bucketPut (s : Store) (key : String) (c : Command) : Except String Store :=
  if key = "" then .error "key required" else .ok (storePut s key c)

/-- The default description substituted for an empty trimmed description. -/
def defaultDescription : String := "No description provided"

def orDefaultDescription (d : String) : String :=
  if d = "" then defaultDescription else d

/-- `Database.AddCommand`. Validation of `name` and `command` happens
before the `strings.TrimSpace` calls, exactly as in the source. The
second component is the store after the call; a failed `db.Update`
transaction is rolled back, so every error branch returns the store
unchanged. -/
def AddCommand (env : Env) (s : Store) (name description command workingDir : String) :
    Except String Unit × Store :=
  if name = "" then (.error "command name is required", s)
  else if command = "" then (.error "command is required", s)
  else
    let name := trimSpace name
    let command := trimSpace command
    let description := orDefaultDescription (trimSpace description)
    let workingDir := trimSpace workingDir
    if workingDir ≠ "" ∧ env.stat workingDir = .notExist then
      (.error ("working directory " ++ workingDir ++ " does not exist"), s)
    else if (storeGet s name).isSome then
      (.error ("command " ++ name ++ " already exists"), s)
    else
      match bucketPut s name ⟨0, name, description, command, workingDir, env.now⟩ with
      | .ok s' => (.ok (), s')
      | .error e => (.error e, s)

/-- `Database.GetCommand`: exact (untrimmed) key lookup. -/
def GetCommand (s : Store) (name : String) : Except String Command :=
  match storeGet s name with
  | none => .error ("command " ++ name ++ " not found")
  | some c => .ok c

/-- `Database.GetAllCommands`: the cursor walks the bucket in ascending
key order and unmarshals every value (unmarshalling a record written by
`AddCommand`/`UpdateCommand` cannot fail). -/
def GetAllCommands (s : Store) : Except String (List Command) :=
  .ok (s.map Prod.snd)

/-- `Database.UpdateCommand`: same validation, trimming and
working-directory check as `AddCommand`, then one transaction that
requires the record to exist, decodes it, overwrites description,
command and workingDir, and writes it back under the same key. -/
def UpdateCommand (env : Env) (s : Store) (name description command workingDir : String) :
    Except String Unit × Store :=
  if name = "" then (.error "command name is required", s)
  else if command = "" then (.error "command is required", s)
  else
    let name := trimSpace name
    let command := trimSpace command
    let description := orDefaultDescription (trimSpace description)
    let workingDir := trimSpace workingDir
    if workingDir ≠ "" ∧ env.stat workingDir = .notExist then
      (.error ("working directory " ++ workingDir ++ " does not exist"), s)
    else
      match storeGet s name with
      | none => (.error ("command " ++ name ++ " not found"), s)
      | some cmd =>
        match bucketPut s name ⟨cmd.id, cmd.name, description, command, workingDir, cmd.createdAt⟩ with
        | .ok s' => (.ok (), s')
        | .error e => (.error e, s)

/-- `Database.DeleteCommand`. -/
def DeleteCommand (s : Store) (name : String) : Except String Unit × Store :=
  match storeGet s name with
  | none => (.error ("command " ++ name ++ " not found"), s)
  | some _ => (.ok (), storeDelete s name)

/-! ## The run subcommand (main.go) -/

/-- Splitting at every character satisfying `p`, keeping empty pieces. -/
def splitPredAux (p : Char → Bool) : List Char → List Char → List (List Char)
  | [], acc => [acc.reverse]
  | c :: rest, acc =>
    if p c then acc.reverse :: splitPredAux p rest []
    else splitPredAux p rest (c :: acc)

/-- Go `strings.Fields`: the maximal runs of non-whitespace characters. -/
def fields (s : String) : List String :=
  ((splitPredAux isSpaceChar s.data []).filter (fun l => l ≠ [])).map (fun l => ⟨l⟩)

/-- What the `run` subcommand hands to `exec.Command`: the tokenized
command and the working directory the child process is started in
(empty meaning the child inherits the process's directory). -/
structure RunPlan where
  exe : String
  args : List String
  dir : String
deriving DecidableEq

/-- The working-directory selection block of the run Action: a non-empty
`--dir` override is resolved through `resolveDirectory`; else the stored
`WorkingDir` is used as-is; else `os.Getwd` (whose error the source
discards with `cmdDir, _ = os.Getwd()`, leaving the empty string). -/
def runDir (env : Env) (command : Command) (workingDir : String) :
    Except String String :=
  if workingDir ≠ "" then
    match resolveDirectory env workingDir with
    | .ok resolvedDir => .ok resolvedDir
    | .error e => .error ("failed to resolve working directory: " ++ e)
  else if command.workingDir ≠ "" then .ok command.workingDir
  else .ok (match env.getwd with | .ok cwd => cwd | .error _ => "")

/-- The `run` subcommand Action in main.go, up to the `exec` call:
fetch the record, choose the working directory through `runDir`, and
tokenize the command into executable and arguments. -/
def runAction (env : Env) (s : Store) (runName workingDir : String) :
    Except String RunPlan :=
  if runName = "" then .error "name is required"
  else
    match GetCommand s runName with
    | .error e => .error ("failed to get command: " ++ e)
    | .ok command =>
      match runDir env command workingDir with
      | .error e => .error e
      | .ok cmdDir =>
        match fields command.command with
        | [] => .error "empty command"
        | exe :: args => .ok ⟨exe, args, cmdDir⟩

/-! ## Sequences of operations -/

/-- One `afv add` invocation's store-level arguments. -/
structure AddInput where
  name : String
  description : String
  command : String
  workingDir : String

/-- Perform a sequence of `AddCommand` calls, all of which must succeed. -/
def addAll (env : Env) (s : Store) : List AddInput → Except String Store
  | [] => .ok s
  | i :: rest =>
    match AddCommand env s i.name i.description i.command i.workingDir with
    | (.ok _, s') => addAll env s' rest
    | (.error e, _) => .error e

/-! ## Order lemmas for the key order -/

lemma string_data_inj {a b : String} (h : a.data = b.data) : a = b := by
  cases a; cases b; cases h; rfl

lemma listCharLt_irrefl : ∀ l : List Char, listCharLt l l = false
  | [] => rfl
  | c :: rest => by simp [listCharLt, listCharLt_irrefl rest]

lemma listCharLt_cons (x y : Char) (xs ys : List Char) :
    listCharLt (x :: xs) (y :: ys) =
      if x < y then true else if x = y then listCharLt xs ys else false :=
  rfl

lemma listCharLt_trans : ∀ {a b c : List Char}, listCharLt a b = true →
    listCharLt b c = true → listCharLt a c = true
  | [], [], _, hab, _ => by simp [listCharLt] at hab
  | [], _ :: _, [], _, hbc => by simp [listCharLt] at hbc
  | [], _ :: _, _ :: _, _, _ => by simp [listCharLt]
  | _ :: _, [], _, hab, _ => by simp [listCharLt] at hab
  | _ :: _, _ :: _, [], _, hbc => by simp [listCharLt] at hbc
  | x :: xs, y :: ys, z :: zs, hab, hbc => by
    rw [listCharLt_cons] at hab hbc
    rw [listCharLt_cons]
    rcases lt_trichotomy x y with hxy | hxy | hxy
    · rcases lt_trichotomy y z with hyz | hyz | hyz
      · rw [if_pos (lt_trans hxy hyz)]
      · subst hyz
        rw [if_pos hxy]
      · rw [if_neg (asymm hyz), if_neg (ne_of_gt hyz)] at hbc
        exact absurd hbc (by simp)
    · subst hxy
      rw [if_neg (lt_irrefl x), if_pos rfl] at hab
      rcases lt_trichotomy x z with hyz | hyz | hyz
      · rw [if_pos hyz]
      · subst hyz
        rw [if_neg (lt_irrefl x), if_pos rfl] at hbc ⊢
        exact listCharLt_trans hab hbc
      · rw [if_neg (asymm hyz), if_neg (ne_of_gt hyz)] at hbc
        exact absurd hbc (by simp)
    · rw [if_neg (asymm hxy), if_neg (ne_of_gt hxy)] at hab
      exact absurd hab (by simp)

lemma listCharLt_total : ∀ {a b : List Char}, listCharLt a b = false → a ≠ b →
    listCharLt b a = true
  | [], [], _, hne => absurd rfl hne
  | [], _ :: _, hab, _ => by simp [listCharLt] at hab
  | _ :: _, [], _, _ => by simp [listCharLt]
  | x :: xs, y :: ys, hab, hne => by
    rw [listCharLt_cons] at hab
    rw [listCharLt_cons]
    rcases lt_trichotomy x y with h | h | h
    · rw [if_pos h] at hab
      exact absurd hab (by simp)
    · subst h
      rw [if_neg (lt_irrefl x), if_pos rfl] at hab ⊢
      refine listCharLt_total hab ?_
      intro hh
      exact hne (by rw [hh])
    · rw [if_pos h]

lemma strLt_irrefl (a : String) : strLt a a = false :=
  listCharLt_irrefl a.data

lemma strLt_trans {a b c : String} (hab : strLt a b = true) (hbc : strLt b c = true) :
    strLt a c = true :=
  listCharLt_trans hab hbc

lemma strLt_total {a b : String} (h : strLt a b = false) (hne : a ≠ b) :
    strLt b a = true :=
  listCharLt_total h (fun hd => hne (string_data_inj hd))

lemma strLt_ne {a b : String} (h : strLt a b = true) : a ≠ b := by
  intro hab
  subst hab
  rw [strLt_irrefl] at h
  exact Bool.false_ne_true h

/-! ## Store lemmas -/

/-- The bucket invariant bbolt maintains: keys are strictly ascending. -/
def Sorted (s : Store) : Prop :=
  s.Pairwise (fun a b => strLt a.1 b.1 = true)

/-- The store invariant the operations maintain on top of key order:
each record is stored under its own (non-empty) name. -/
def WF (s : Store) : Prop :=
  Sorted s ∧ ∀ p ∈ s, p.2.name = p.1 ∧ p.1 ≠ ""

lemma WF_nil : WF [] :=
  ⟨List.Pairwise.nil, by simp⟩

lemma storeGet_storePut_self (s : Store) (k : String) (c : Command) :
    storeGet (storePut s k c) k = some c := by
  induction s with
  | nil => simp [storePut, storeGet]
  | cons p rest ih =>
    obtain ⟨k', c'⟩ := p
    simp only [storePut]
    split_ifs with h1 h2
    · simp [storeGet]
    · simp [storeGet]
    · simp [storeGet, h2, ih]

lemma length_storePut (s : Store) (k : String) (c : Command)
    (h : storeGet s k = none) : (storePut s k c).length = s.length + 1 := by
  induction s with
  | nil => simp [storePut]
  | cons p rest ih =>
    obtain ⟨k', c'⟩ := p
    simp only [storeGet] at h
    by_cases hk : k = k'
    · rw [if_pos hk] at h
      exact absurd h (by simp)
    · rw [if_neg hk] at h
      simp only [storePut]
      split_ifs with h1
      · simp
      · simp [ih h]

lemma mem_storePut {s : Store} {k : String} {c : Command} {p : String × Command}
    (h : p ∈ storePut s k c) : p = (k, c) ∨ p ∈ s := by
  induction s with
  | nil => simpa [storePut] using h
  | cons q rest ih =>
    obtain ⟨k', c'⟩ := q
    simp only [storePut] at h
    split_ifs at h with h1 h2
    · simp only [List.mem_cons] at h ⊢
      tauto
    · simp only [List.mem_cons] at h ⊢
      rcases h with h | h
      · exact Or.inl h
      · exact Or.inr (Or.inr h)
    · simp only [List.mem_cons] at h ⊢
      rcases h with h | h
      · exact Or.inr (Or.inl h)
      · rcases ih h with h' | h'
        · exact Or.inl h'
        · exact Or.inr (Or.inr h')

lemma sorted_storePut {s : Store} (hs : Sorted s) (k : String) (c : Command) :
    Sorted (storePut s k c) := by
  induction s with
  | nil => simp [storePut, Sorted]
  | cons q rest ih =>
    obtain ⟨k', c'⟩ := q
    rw [Sorted, List.pairwise_cons] at hs
    obtain ⟨hhead, hrest⟩ := hs
    simp only [storePut]
    split_ifs with h1 h2
    · rw [Sorted, List.pairwise_cons]
      refine ⟨?_, List.pairwise_cons.mpr ⟨hhead, hrest⟩⟩
      intro p hp
      rcases List.mem_cons.mp hp with rfl | hp'
      · exact h1
      · exact strLt_trans h1 (hhead p hp')
    · subst h2
      rw [Sorted, List.pairwise_cons]
      exact ⟨hhead, hrest⟩
    · rw [Sorted, List.pairwise_cons]
      refine ⟨?_, ih hrest⟩
      intro p hp
      rcases mem_storePut hp with rfl | hp'
      · exact strLt_total (by simpa using h1) h2
      · exact hhead p hp'

lemma storeGet_mem {s : Store} {k : String} {c : Command}
    (h : storeGet s k = some c) : (k, c) ∈ s := by
  induction s with
  | nil => simp [storeGet] at h
  | cons q rest ih =>
    obtain ⟨k', c'⟩ := q
    simp only [storeGet] at h
    split at h
    · simp_all
    · simp [ih h]

lemma WF_storePut {s : Store} (h : WF s) {k : String} {c : Command}
    (hname : c.name = k) (hk : k ≠ "") : WF (storePut s k c) := by
  refine ⟨sorted_storePut h.1 _ _, ?_⟩
  intro p hp
  rcases mem_storePut hp with rfl | hp'
  · exact ⟨hname, hk⟩
  · exact h.2 p hp'

/-! ## Inversion of the store operations -/

lemma AddCommand_ok_inv {env : Env} {s : Store} {n d c w : String} {s' : Store}
    (h : AddCommand env s n d c w = (.ok (), s')) :
    n ≠ "" ∧ c ≠ "" ∧
    ¬(trimSpace w ≠ "" ∧ env.stat (trimSpace w) = .notExist) ∧
    storeGet s (trimSpace n) = none ∧ trimSpace n ≠ "" ∧
    s' = storePut s (trimSpace n)
      ⟨0, trimSpace n, orDefaultDescription (trimSpace d), trimSpace c,
        trimSpace w, env.now⟩ := by
  unfold AddCommand at h
  by_cases h1 : n = ""
  · rw [if_pos h1] at h
    simp at h
  rw [if_neg h1] at h
  by_cases h2 : c = ""
  · rw [if_pos h2] at h
    simp at h
  rw [if_neg h2] at h
  by_cases h3 : trimSpace w ≠ "" ∧ env.stat (trimSpace w) = StatResult.notExist
  · rw [if_pos h3] at h
    simp at h
  rw [if_neg h3] at h
  rcases hget : storeGet s (trimSpace n) with _ | cmd
  · rw [hget] at h
    simp only [Option.isSome_none, Bool.false_eq_true, if_false] at h
    unfold bucketPut at h
    by_cases h5 : trimSpace n = ""
    · rw [if_pos h5] at h
      simp at h
    rw [if_neg h5] at h
    exact ⟨h1, h2, h3, rfl, h5, (congrArg Prod.snd h).symm⟩
  · rw [hget] at h
    simp at h

lemma AddCommand_ok (env : Env) (s : Store) (n d c w : String)
    (hn : n ≠ "") (hc : c ≠ "")
    (hw : ¬(trimSpace w ≠ "" ∧ env.stat (trimSpace w) = .notExist))
    (hget : storeGet s (trimSpace n) = none) (hk : trimSpace n ≠ "") :
    AddCommand env s n d c w = (.ok (), storePut s (trimSpace n)
      ⟨0, trimSpace n, orDefaultDescription (trimSpace d), trimSpace c,
        trimSpace w, env.now⟩) := by
  unfold AddCommand
  rw [if_neg hn, if_neg hc, if_neg hw]
  simp only [hget, Option.isSome_none, Bool.false_eq_true, if_false]
  unfold bucketPut
  rw [if_neg hk]

lemma UpdateCommand_ok_inv {env : Env} {s : Store} {n d c w : String} {s' : Store}
    (h : UpdateCommand env s n d c w = (.ok (), s')) :
    n ≠ "" ∧ c ≠ "" ∧
    ¬(trimSpace w ≠ "" ∧ env.stat (trimSpace w) = .notExist) ∧
    ∃ cmd, storeGet s (trimSpace n) = some cmd ∧ trimSpace n ≠ "" ∧
      s' = storePut s (trimSpace n)
        ⟨cmd.id, cmd.name, orDefaultDescription (trimSpace d), trimSpace c,
          trimSpace w, cmd.createdAt⟩ := by
  unfold UpdateCommand at h
  by_cases h1 : n = ""
  · rw [if_pos h1] at h
    simp at h
  rw [if_neg h1] at h
  by_cases h2 : c = ""
  · rw [if_pos h2] at h
    simp at h
  rw [if_neg h2] at h
  by_cases h3 : trimSpace w ≠ "" ∧ env.stat (trimSpace w) = StatResult.notExist
  · rw [if_pos h3] at h
    simp at h
  rw [if_neg h3] at h
  split at h
  · simp at h
  · rename_i cmd hget
    unfold bucketPut at h
    by_cases h5 : trimSpace n = ""
    · rw [if_pos h5] at h
      exact Except.noConfusion (congrArg Prod.fst h)
    rw [if_neg h5] at h
    exact ⟨h1, h2, h3, cmd, hget, h5, (congrArg Prod.snd h).symm⟩

lemma WF_AddCommand {env : Env} {s : Store} {n d c w : String} {s' : Store}
    (h : AddCommand env s n d c w = (.ok (), s')) (hs : WF s) : WF s' := by
  obtain ⟨-, -, -, -, hk, rfl⟩ := AddCommand_ok_inv h
  exact WF_storePut hs rfl hk

lemma WF_UpdateCommand {env : Env} {s : Store} {n d c w : String} {s' : Store}
    (h : UpdateCommand env s n d c w = (.ok (), s')) (hs : WF s) : WF s' := by
  obtain ⟨-, -, -, cmd, hget, hk, rfl⟩ := UpdateCommand_ok_inv h
  exact WF_storePut hs (hs.2 _ (storeGet_mem hget)).1 hk

lemma addAll_ok {env : Env} : ∀ {inputs : List AddInput} {s s' : Store},
    addAll env s inputs = .ok s' → WF s →
    WF s' ∧ s'.length = s.length + inputs.length
  | [], s, s', h, hs => by
    simp only [addAll] at h
    cases h
    exact ⟨hs, by simp⟩
  | i :: rest, s, s', h, hs => by
    simp only [addAll] at h
    split at h
    · rename_i r s₁ heq
      have hok : AddCommand env s i.name i.description i.command i.workingDir =
          (.ok (), s₁) := by
        rcases r with u
        exact heq
      obtain ⟨-, -, -, hget, -, hs₁⟩ := AddCommand_ok_inv hok
      have hwf₁ : WF s₁ := WF_AddCommand hok hs
      obtain ⟨hwf', hlen⟩ := addAll_ok h hwf₁
      refine ⟨hwf', ?_⟩
      rw [hlen, hs₁, length_storePut _ _ _ hget]
      simp [List.length_cons]
      omega
    · exact absurd h (by simp)

/-- The records returned by the cursor walk are pairwise strictly
ascending in name. -/
lemma pairwise_names {s : Store} (h : WF s) :
    (s.map Prod.snd).Pairwise (fun a b => strLt a.name b.name = true) := by
  rw [List.pairwise_map]
  refine List.Pairwise.imp_of_mem ?_ h.1
  intro a b ha hb hab
  rw [(h.2 a ha).1, (h.2 b hb).1]
  exact hab

lemma UpdateCommand_ok (env : Env) (s : Store) (n d c w : String) (old : Command)
    (hn : n ≠ "") (hc : c ≠ "")
    (hw : ¬(trimSpace w ≠ "" ∧ env.stat (trimSpace w) = StatResult.notExist))
    (hget : storeGet s (trimSpace n) = some old) (hk : trimSpace n ≠ "") :
    UpdateCommand env s n d c w = (.ok (), storePut s (trimSpace n)
      ⟨old.id, old.name, orDefaultDescription (trimSpace d), trimSpace c,
        trimSpace w, old.createdAt⟩) := by
  unfold UpdateCommand
  rw [if_neg hn, if_neg hc, if_neg hw]
  split
  · rename_i heq
    rw [hget] at heq
    cases heq
  · rename_i cmd heq
    rw [hget] at heq
    injection heq with he
    subst he
    unfold bucketPut
    rw [if_neg hk]

lemma runAction_ok (env : Env) (s : Store) (runName workingDir : String)
    (rec : Command) (cmdDir exe : String) (args : List String)
    (hname : runName ≠ "") (hrec : GetCommand s runName = .ok rec)
    (hdir : runDir env rec workingDir = .ok cmdDir)
    (hfields : fields rec.command = exe :: args) :
    runAction env s runName workingDir = .ok ⟨exe, args, cmdDir⟩ := by
  unfold runAction
  rw [if_neg hname]
  split
  · rename_i e heq
    rw [hrec] at heq
    cases heq
  · rename_i command heq
    rw [hrec] at heq
    injection heq with he
    subst he
    split
    · rename_i e heq2
      rw [hdir] at heq2
      cases heq2
    · rename_i cmdDir' heq2
      rw [hdir] at heq2
      injection heq2 with he2
      subst he2
      split
      · rename_i heq3
        rw [hfields] at heq3
        cases heq3
      · rename_i exe' args' heq3
        rw [hfields] at heq3
        injection heq3 with he3 he4
        rw [he3, he4]

lemma ne_dot_tilde_of_hasPrefix {t : String} (h : hasPrefix t "~/" = true) :
    t ≠ "." ∧ t ≠ "~" := by
  constructor
  · intro he
    rw [he] at h
    exact absurd h (by decide)
  · intro he
    rw [he] at h
    exact absurd h (by decide)

/-! ## Concrete environments and records used by witnesses -/

def envA : Env := ⟨.ok "/w", .ok "/home/u", fun _ => .isDir, "2024-01-01 10:00:00"⟩

def statOracleFile : String → StatResult :=
  fun p => if p = "/data/notes.txt" then .isFile else .notExist

def envFile : Env := ⟨.ok "/w", .ok "/home/u", statOracleFile, "2024-02-02 12:00:00"⟩

def envNoDir : Env := ⟨.ok "/w", .ok "/home/u", fun _ => .notExist, "2024-03-03 09:30:00"⟩

def recOld : Command := ⟨0, "x", "d0", "c0", "", "2023-12-31 00:00:00"⟩

/-! ## Claims -/

/-- C1 (amended): `resolveDirectory` returns the empty string with no
error only for the literally empty input; the empty check precedes the
trim, so a whitespace-only (non-empty) input is trimmed to empty, falls
through to the general path case, and resolves via `filepath.Abs("")` to
the (cleaned) process current directory rather than the empty string. -/
theorem resolveDirectory_empty_and_whitespace (env : Env) (dir cwd : String)
    (hcwd : env.getwd = .ok cwd) (hc : cwd ≠ "") :
    resolveDirectory env "" = .ok "" ∧
    (dir ≠ "" → trimSpace dir = "" →
      resolveDirectory env dir = .ok (filepathClean cwd)) := by
  refine ⟨rfl, ?_⟩
  intro hne htrim
  unfold resolveDirectory
  rw [if_neg hne, htrim]
  rw [if_neg (show ¬("" : String) = "." by decide)]
  rw [if_neg (show ¬("" : String) = "~" by decide)]
  rw [if_neg (show ¬(hasPrefix "" "~/" = true) by decide)]
  unfold filepathAbs
  rw [if_neg (show ¬(filepathIsAbs "" = true) by decide), hcwd]
  show Except.ok (filepathJoin cwd "") = Except.ok (filepathClean cwd)
  unfold filepathJoin
  rw [if_neg hc, if_pos rfl]

/-- C1 witness. -/
theorem resolveDirectory_empty_and_whitespace_witness :
    resolveDirectory envA "" = .ok "" ∧
    resolveDirectory envA " " = .ok (filepathClean "/w") :=
  have h := resolveDirectory_empty_and_whitespace envA " " "/w" rfl (by decide)
  ⟨h.1, h.2 (by decide) (by decide)⟩

/-- C1 counterexample: the whitespace-only input `"   "` does not return
the empty string — it resolves to the current directory `/w`. -/
theorem resolveDirectory_whitespace_counterexample :
    resolveDirectory envA "   " ≠ .ok "" ∧
    resolveDirectory envA "   " = .ok "/w" :=
  ⟨by decide, by decide⟩

/-- C2 (amended): `AddCommand` and `UpdateCommand` validate `name` and
`command` against the empty string before trimming: an entirely empty
name or command fails with the validation error and writes nothing, but
whitespace-only arguments pass this validation, so a persisted record's
`Command` can be empty; the persisted `Name` is still always non-empty
(an empty trimmed name is stopped by the store's empty-key rejection,
which keeps the well-formedness invariant). -/
theorem add_update_validate_before_trim (env : Env) (s s' : Store)
    (n d c w : String) :
    AddCommand env s "" d c w = (.error "command name is required", s) ∧
    (n ≠ "" → AddCommand env s n d "" w = (.error "command is required", s)) ∧
    UpdateCommand env s "" d c w = (.error "command name is required", s) ∧
    (n ≠ "" → UpdateCommand env s n d "" w = (.error "command is required", s)) ∧
    (AddCommand env s n d c w = (.ok (), s') → WF s → ∀ p ∈ s', p.2.name ≠ "") ∧
    (UpdateCommand env s n d c w = (.ok (), s') → WF s → ∀ p ∈ s', p.2.name ≠ "") := by
  refine ⟨rfl, ?_, rfl, ?_, ?_, ?_⟩
  · intro hn
    unfold AddCommand
    rw [if_neg hn, if_pos rfl]
  · intro hn
    unfold UpdateCommand
    rw [if_neg hn, if_pos rfl]
  · intro h hs p hp
    have hwf := WF_AddCommand h hs
    rw [(hwf.2 p hp).1]
    exact (hwf.2 p hp).2
  · intro h hs p hp
    have hwf := WF_UpdateCommand h hs
    rw [(hwf.2 p hp).1]
    exact (hwf.2 p hp).2

/-- C2 witness. -/
theorem add_update_validate_before_trim_witness :
    AddCommand envA [] "" "d" "c" "" = (.error "command name is required", []) ∧
    AddCommand envA [] "x" "d" "" "" = (.error "command is required", []) ∧
    ∀ p ∈ ([("x", (⟨0, "x", "d", "c", "", "2024-01-01 10:00:00"⟩ : Command))] : Store),
      p.2.name ≠ "" :=
  have h := add_update_validate_before_trim envA []
    [("x", ⟨0, "x", "d", "c", "", "2024-01-01 10:00:00"⟩)] "x" "d" "c" ""
  ⟨h.1, h.2.1 (by decide), h.2.2.2.2.1 (by decide) WF_nil⟩

/-- C2 counterexample: a whitespace-only `command` passes the validation
(which runs before trimming), the call succeeds, and the persisted
record has an empty `Command`. -/
theorem whitespace_command_persisted_counterexample :
    (AddCommand envA [] "build" "d" "   " "").1 = .ok () ∧
    storeGet (AddCommand envA [] "build" "d" "   " "").2 "build" =
      some ⟨0, "build", "d", "", "", "2024-01-01 10:00:00"⟩ :=
  ⟨by decide, by decide⟩

/-- C3 (amended): a non-empty trimmed `workingDir` that `os.Stat`
reports as non-existent makes `AddCommand` and `UpdateCommand` fail with
the filesystem error without writing; consequently the record persisted
by a successful `AddCommand`/`UpdateCommand` has a `WorkingDir` that is
either empty or a path `os.Stat` did not report as non-existent at write
time (not necessarily an existing directory — see the counterexample). -/
theorem workingDir_stat_check (env : Env) (s s' : Store) (n d c w : String)
    (hn : n ≠ "") (hc : c ≠ "") :
    (trimSpace w ≠ "" → env.stat (trimSpace w) = .notExist →
      AddCommand env s n d c w =
        (.error ("working directory " ++ trimSpace w ++ " does not exist"), s) ∧
      UpdateCommand env s n d c w =
        (.error ("working directory " ++ trimSpace w ++ " does not exist"), s)) ∧
    (AddCommand env s n d c w = (.ok (), s') →
      ∀ rec, storeGet s' (trimSpace n) = some rec →
        rec.workingDir = "" ∨ env.stat rec.workingDir ≠ .notExist) ∧
    (UpdateCommand env s n d c w = (.ok (), s') →
      ∀ rec, storeGet s' (trimSpace n) = some rec →
        rec.workingDir = "" ∨ env.stat rec.workingDir ≠ .notExist) := by
  refine ⟨?_, ?_, ?_⟩
  · intro hw hstat
    constructor
    · unfold AddCommand
      rw [if_neg hn, if_neg hc, if_pos ⟨hw, hstat⟩]
    · unfold UpdateCommand
      rw [if_neg hn, if_neg hc, if_pos ⟨hw, hstat⟩]
  · intro h rec hrec
    obtain ⟨-, -, h3, -, -, rfl⟩ := AddCommand_ok_inv h
    rw [storeGet_storePut_self] at hrec
    injection hrec with he
    subst he
    rcases not_and_or.mp h3 with h' | h'
    · exact Or.inl (not_ne_iff.mp h')
    · exact Or.inr h'
  · intro h rec hrec
    obtain ⟨-, -, h3, cmd, hget, -, rfl⟩ := UpdateCommand_ok_inv h
    rw [storeGet_storePut_self] at hrec
    injection hrec with he
    subst he
    rcases not_and_or.mp h3 with h' | h'
    · exact Or.inl (not_ne_iff.mp h')
    · exact Or.inr h'

/-- C3 witness. -/
theorem workingDir_stat_check_witness :
    AddCommand envNoDir [] "x" "d" "c" "/missing" =
      (.error ("working directory " ++ trimSpace "/missing" ++ " does not exist"), []) ∧
    UpdateCommand envNoDir [] "x" "d" "c" "/missing" =
      (.error ("working directory " ++ trimSpace "/missing" ++ " does not exist"), []) ∧
    ∀ rec, storeGet (AddCommand envFile [] "job" "d" "make" "/data/notes.txt").2
        (trimSpace "job") = some rec →
      rec.workingDir = "" ∨ envFile.stat rec.workingDir ≠ .notExist :=
  have h1 := workingDir_stat_check envNoDir [] [] "x" "d" "c" "/missing"
    (by decide) (by decide)
  have h2 := workingDir_stat_check envFile []
    (AddCommand envFile [] "job" "d" "make" "/data/notes.txt").2 "job" "d" "make"
    "/data/notes.txt" (by decide) (by decide)
  ⟨(h1.1 (by decide) (by decide)).1, (h1.1 (by decide) (by decide)).2,
    h2.2.1 (by decide)⟩

/-- C3 counterexample: a path that exists on disk as a regular file, not
a directory, is accepted, and the persisted record's non-empty
`WorkingDir` is not an existing directory at write time. -/
theorem workingDir_file_counterexample :
    (AddCommand envFile [] "job" "d" "make" "/data/notes.txt").1 = .ok () ∧
    storeGet (AddCommand envFile [] "job" "d" "make" "/data/notes.txt").2 "job" =
      some ⟨0, "job", "d", "make", "/data/notes.txt", "2024-02-02 12:00:00"⟩ ∧
    envFile.stat "/data/notes.txt" ≠ .isDir :=
  ⟨by decide, by decide, by decide⟩

/-- C4: for a fetched record, the execution working directory follows
the three-tier priority: a non-empty runtime override is resolved
through the Directory Resolver; else the stored `WorkingDir`, if
non-empty, is used verbatim (no re-resolution); else the process
current directory. -/
theorem run_workingDir_priority (env : Env) (s : Store)
    (name override : String) (rec : Command) (exe : String) (args : List String)
    (hname : name ≠ "") (hrec : GetCommand s name = .ok rec)
    (hfields : fields rec.command = exe :: args) :
    (∀ dirR, override ≠ "" → resolveDirectory env override = .ok dirR →
      runAction env s name override = .ok ⟨exe, args, dirR⟩) ∧
    (override = "" → rec.workingDir ≠ "" →
      runAction env s name override = .ok ⟨exe, args, rec.workingDir⟩) ∧
    (∀ cwd, override = "" → rec.workingDir = "" → env.getwd = .ok cwd →
      runAction env s name override = .ok ⟨exe, args, cwd⟩) := by
  refine ⟨?_, ?_, ?_⟩
  · intro dirR hov hres
    refine runAction_ok env s name override rec dirR exe args hname hrec ?_ hfields
    unfold runDir
    rw [if_pos hov, hres]
  · intro hov hwd
    refine runAction_ok env s name override rec rec.workingDir exe args hname hrec ?_ hfields
    unfold runDir
    rw [if_neg (fun hne => hne hov), if_pos hwd]
  · intro cwd hov hwd hcwd
    refine runAction_ok env s name override rec cwd exe args hname hrec ?_ hfields
    unfold runDir
    rw [if_neg (fun hne => hne hov), if_neg (fun hne => hne hwd), hcwd]

def recJob : Command := ⟨0, "job", "d", "echo hi", "/stored", "2024-01-01 10:00:00"⟩

def recJob2 : Command := ⟨0, "job2", "d", "ls", "", "2024-01-01 10:00:00"⟩

/-- C4 witness: one concrete run for each tier of the priority. -/
theorem run_workingDir_priority_witness :
    runAction envA [("job", recJob)] "job" "~" = .ok ⟨"echo", ["hi"], "/home/u"⟩ ∧
    runAction envA [("job", recJob)] "job" "" = .ok ⟨"echo", ["hi"], "/stored"⟩ ∧
    runAction envA [("job2", recJob2)] "job2" "" = .ok ⟨"ls", [], "/w"⟩ :=
  ⟨(run_workingDir_priority envA [("job", recJob)] "job" "~" recJob "echo" ["hi"]
      (by decide) (by decide) (by decide)).1 "/home/u" (by decide) (by decide),
   (run_workingDir_priority envA [("job", recJob)] "job" "" recJob "echo" ["hi"]
      (by decide) (by decide) (by decide)).2.1 rfl (by decide),
   (run_workingDir_priority envA [("job2", recJob2)] "job2" "" recJob2 "ls" []
      (by decide) (by decide) (by decide)).2.2 "/w" rfl rfl rfl⟩

/-- C5: `AddCommand` on a name whose (trimmed) key is already present
fails with the conflict error and leaves the store — in particular the
existing record — exactly unchanged; the existence check and the write
are one all-or-nothing transaction, so an error leaves no partial
write. -/
theorem addCommand_conflict (env : Env) (s : Store) (n d c w : String)
    (old : Command) (hn : n ≠ "") (hc : c ≠ "")
    (hw : ¬(trimSpace w ≠ "" ∧ env.stat (trimSpace w) = StatResult.notExist))
    (hold : storeGet s (trimSpace n) = some old) :
    AddCommand env s n d c w =
      (.error ("command " ++ trimSpace n ++ " already exists"), s) ∧
    storeGet (AddCommand env s n d c w).2 (trimSpace n) = some old := by
  have h : AddCommand env s n d c w =
      (.error ("command " ++ trimSpace n ++ " already exists"), s) := by
    unfold AddCommand
    rw [if_neg hn, if_neg hc, if_neg hw, hold]
    rfl
  refine ⟨h, ?_⟩
  rw [h]
  exact hold

/-- C5 witness. -/
theorem addCommand_conflict_witness :
    AddCommand envA [("x", recOld)] "x" "d1" "c1" "" =
      (.error ("command " ++ trimSpace "x" ++ " already exists"), [("x", recOld)]) ∧
    storeGet (AddCommand envA [("x", recOld)] "x" "d1" "c1" "").2 (trimSpace "x") =
      some recOld :=
  addCommand_conflict envA [("x", recOld)] "x" "d1" "c1" "" recOld
    (by decide) (by decide) (by decide) (by decide)

/-- C6: a successful `UpdateCommand` leaves the record stored under the
same key with `Description`, `Command` and `WorkingDir` overwritten by
the (trimmed, defaulted) arguments while `Name`, `CreatedAt` (and the
unused `ID`) are carried over unchanged from the existing record. -/
theorem updateCommand_preserves_name_createdAt (env : Env) (s : Store)
    (n d c w : String) (old : Command) (s' : Store)
    (hold : storeGet s (trimSpace n) = some old)
    (h : UpdateCommand env s n d c w = (.ok (), s')) :
    storeGet s' (trimSpace n) =
      some ⟨old.id, old.name, orDefaultDescription (trimSpace d), trimSpace c,
        trimSpace w, old.createdAt⟩ := by
  obtain ⟨-, -, -, cmd, hget, -, rfl⟩ := UpdateCommand_ok_inv h
  rw [hold] at hget
  injection hget with he
  subst he
  exact storeGet_storePut_self _ _ _

/-- C6 witness. -/
theorem updateCommand_preserves_witness :
    storeGet [("x", (⟨0, "x", "nd", "nc", "", "2023-12-31 00:00:00"⟩ : Command))]
        (trimSpace "x") =
      some ⟨recOld.id, recOld.name, orDefaultDescription (trimSpace "nd"),
        trimSpace "nc", trimSpace "", recOld.createdAt⟩ :=
  updateCommand_preserves_name_createdAt envA [("x", recOld)] "x" "nd" "nc" ""
    recOld [("x", ⟨0, "x", "nd", "nc", "", "2023-12-31 00:00:00"⟩)]
    (by decide) (by decide)

/-- C7: after any successful sequence of N insertions (success forces
the names to be distinct), `GetAllCommands` returns exactly N records,
pairwise strictly ascending in name (the bucket's lexicographic key
order) and hence without duplicates; on the empty store it returns the
empty list, not an error. -/
theorem getAllCommands_sorted_complete (env : Env) (inputs : List AddInput)
    (s : Store) (records : List Command)
    (h : addAll env [] inputs = .ok s)
    (hr : GetAllCommands s = .ok records) :
    records.length = inputs.length ∧
    records.Pairwise (fun a b => strLt a.name b.name = true) ∧
    records.Nodup ∧
    GetAllCommands ([] : Store) = .ok ([] : List Command) := by
  obtain ⟨hwf, hlen⟩ := addAll_ok h WF_nil
  have hrec : records = s.map Prod.snd := by
    unfold GetAllCommands at hr
    injection hr with h'
    exact h'.symm
  subst hrec
  refine ⟨?_, pairwise_names hwf, ?_, rfl⟩
  · rw [List.length_map, hlen]
    simp
  · refine List.Pairwise.imp ?_ (pairwise_names hwf)
    intro a b hab habe
    subst habe
    rw [strLt_irrefl] at hab
    exact Bool.false_ne_true hab

def inputsW : List AddInput :=
  [⟨"bravo", "d1", "echo 1", ""⟩, ⟨"alpha", "d2", "echo 2", ""⟩]

def recAlpha : Command := ⟨0, "alpha", "d2", "echo 2", "", "2024-01-01 10:00:00"⟩

def recBravo : Command := ⟨0, "bravo", "d1", "echo 1", "", "2024-01-01 10:00:00"⟩

/-- C7 witness: two inserts in descending name order come back ascending. -/
theorem getAllCommands_sorted_complete_witness :
    ([recAlpha, recBravo] : List Command).length = inputsW.length ∧
    ([recAlpha, recBravo] : List Command).Pairwise
      (fun a b => strLt a.name b.name = true) ∧
    ([recAlpha, recBravo] : List Command).Nodup ∧
    GetAllCommands ([] : Store) = .ok ([] : List Command) :=
  getAllCommands_sorted_complete envA inputsW
    [("alpha", recAlpha), ("bravo", recBravo)] [recAlpha, recBravo]
    (by decide) (by decide)

/-- C8 (amended): a successful `Add(name, description, command,
workingDir)` followed by `Get` on the trimmed name returns a record
whose `Name`, `Command` and `WorkingDir` are the trimmed inputs and
whose `Description` is the trimmed input or the default placeholder if
it trimmed to empty. (`GetCommand` does not trim its argument, so the
lookup must use the trimmed name — see the counterexample.) -/
theorem add_get_roundtrip (env : Env) (s s' : Store) (n d c w : String)
    (h : AddCommand env s n d c w = (.ok (), s')) :
    GetCommand s' (trimSpace n) = .ok
      ⟨0, trimSpace n, orDefaultDescription (trimSpace d), trimSpace c,
        trimSpace w, env.now⟩ := by
  obtain ⟨-, -, -, -, -, rfl⟩ := AddCommand_ok_inv h
  unfold GetCommand
  rw [storeGet_storePut_self]

/-- C8 witness: whitespace-padded inputs and an empty description. -/
theorem add_get_roundtrip_witness :
    GetCommand
        [("y", (⟨0, "y", "No description provided", "c", "",
          "2024-01-01 10:00:00"⟩ : Command))] (trimSpace " y ") =
      .ok ⟨0, trimSpace " y ", orDefaultDescription (trimSpace "  "),
        trimSpace " c ", trimSpace "", envA.now⟩ :=
  add_get_roundtrip envA []
    [("y", ⟨0, "y", "No description provided", "c", "", "2024-01-01 10:00:00"⟩)]
    " y " "  " " c " "" (by decide)

/-- C8 counterexample: with the valid non-empty name `" x "` (carrying
surrounding whitespace), `Add` succeeds but `Get` on the same raw name
fails not-found, because the record was keyed by the trimmed name and
`GetCommand` does not trim. -/
theorem add_get_untrimmed_counterexample :
    (AddCommand envA [] " x " "d" "c" "").1 = .ok () ∧
    GetCommand (AddCommand envA [] " x " "d" "c" "").2 " x " =
      .error "command  x  not found" :=
  ⟨by decide, by decide⟩

/-- C9: `resolveDirectory` maps (an input trimming to) exactly `~` to
the home directory, and any input whose trimmed form starts with `~/`
to the home directory joined with everything after that two-character
prefix, taken literally — the tail is never re-expanded, so a later `~`
stays a literal path segment. -/
theorem resolveDirectory_tilde (env : Env) (dir home : String)
    (hh : env.homeDir = .ok home) :
    (dir ≠ "" → trimSpace dir = "~" → resolveDirectory env dir = .ok home) ∧
    (dir ≠ "" → hasPrefix (trimSpace dir) "~/" = true →
      resolveDirectory env dir =
        .ok (filepathJoin home (strDrop (trimSpace dir) 2))) := by
  constructor
  · intro hne htrim
    unfold resolveDirectory
    rw [if_neg hne, htrim]
    rw [if_neg (show ¬("~" : String) = "." by decide), if_pos rfl, hh]
  · intro hne hpre
    obtain ⟨hdot, htil⟩ := ne_dot_tilde_of_hasPrefix hpre
    unfold resolveDirectory
    rw [if_neg hne, if_neg hdot, if_neg htil, if_pos hpre, hh]

/-- C9 witness: `~` itself, and the double-tilde input `~/~/test`, whose
tail `~/test` is joined literally onto the home directory. -/
theorem resolveDirectory_tilde_witness :
    resolveDirectory envA "~" = .ok "/home/u" ∧
    resolveDirectory envA "~/~/test" =
      .ok (filepathJoin "/home/u" (strDrop (trimSpace "~/~/test") 2)) ∧
    filepathJoin "/home/u" (strDrop (trimSpace "~/~/test") 2) = "/home/u/~/test" :=
  have h := resolveDirectory_tilde envA "~/~/test" "/home/u" rfl
  ⟨(resolveDirectory_tilde envA "~" "/home/u" rfl).1 (by decide) (by decide),
   h.2 (by decide) (by decide), by decide⟩

/-- C10: the working-directory check in `AddCommand` and `UpdateCommand`
rejects only a path whose `os.Stat` result is “does not exist”; a path
that exists as a regular file, or whose stat fails for another reason,
is accepted and persisted unchanged as the record's `WorkingDir`. -/
theorem workingDir_check_only_notExist (env : Env) (s₁ s₂ : Store)
    (n d c w : String) (old : Command)
    (hn : n ≠ "") (hc : c ≠ "") (_hw : trimSpace w ≠ "")
    (hstat : env.stat (trimSpace w) ≠ .notExist) :
    (storeGet s₁ (trimSpace n) = none → trimSpace n ≠ "" →
      AddCommand env s₁ n d c w = (.ok (), storePut s₁ (trimSpace n)
        ⟨0, trimSpace n, orDefaultDescription (trimSpace d), trimSpace c,
          trimSpace w, env.now⟩)) ∧
    (storeGet s₂ (trimSpace n) = some old → trimSpace n ≠ "" →
      UpdateCommand env s₂ n d c w = (.ok (), storePut s₂ (trimSpace n)
        ⟨old.id, old.name, orDefaultDescription (trimSpace d), trimSpace c,
          trimSpace w, old.createdAt⟩)) := by
  constructor
  · intro hget hk
    exact AddCommand_ok env s₁ n d c w hn hc (fun hx => hstat hx.2) hget hk
  · intro hget hk
    exact UpdateCommand_ok env s₂ n d c w old hn hc (fun hx => hstat hx.2) hget hk

/-- C10 witness: the stat oracle reports `/data/notes.txt` as a regular
file; both operations accept it and persist it unchanged. -/
theorem workingDir_check_only_notExist_witness :
    AddCommand envFile [] "x" "d" "make" "/data/notes.txt" =
      (.ok (), storePut [] (trimSpace "x")
        ⟨0, trimSpace "x", orDefaultDescription (trimSpace "d"),
          trimSpace "make", trimSpace "/data/notes.txt", envFile.now⟩) ∧
    UpdateCommand envFile [("x", recOld)] "x" "d" "make" "/data/notes.txt" =
      (.ok (), storePut [("x", recOld)] (trimSpace "x")
        ⟨recOld.id, recOld.name, orDefaultDescription (trimSpace "d"),
          trimSpace "make", trimSpace "/data/notes.txt", recOld.createdAt⟩) :=
  have h := workingDir_check_only_notExist envFile [] [("x", recOld)]
    "x" "d" "make" "/data/notes.txt" recOld (by decide) (by decide)
    (by decide) (by decide)
  ⟨h.1 (by decide) (by decide), h.2 (by decide) (by decide)⟩

end Afvikle
